import Mathlib

/-!
# Capacity Reconciliation Engine — verification development

Shallow embedding of the capacity-planning core of the `jira-timesheet`
server (`server/index.js`): the sprint-discovery probing loop of
`GET /api/capacity`, the planned-work aggregation over fetched issues,
the Excel baseline loader `getCapacityFromExcel`, the upload handler
`POST /api/capacity/upload`, and the merge/classification step.

JavaScript semantics modelled explicitly:
* `null`/`undefined` fields become `Option`;
* the falsy test `x || y` on strings treats `""` as falsy (`jsOrStr`);
* JS objects used as string-keyed maps become association lists in
  insertion order (`Object.values` preserves insertion order of
  string keys), with `find?`-based lookup;
* machine numbers carrying seconds are modelled as `Int` (estimates)
  and `ℚ` (spreadsheet hours, ratios); no overflow is relevant at the
  magnitudes involved.
-/

namespace JiraTimesheet

/-- `issue.fields.assignee` object: `displayName` and `name` may each be
absent (`null`/`undefined`) or present (possibly the empty string). -/
structure Assignee where
  displayName : Option String
  accountName : Option String
deriving DecidableEq, Repr

/-- The part of a Jira issue used by the capacity endpoint:
`fields.assignee` and `fields.timeestimate` (remaining estimate in
seconds), each possibly `null`. -/
structure Issue where
  assignee : Option Assignee
  timeestimate : Option Int
deriving DecidableEq, Repr

/-- JS `a || b` on a possibly-null string: `null`, `undefined` and `""`
are falsy. -/
def jsOrStr (v : Option String) (d : String) : String :=
  match v with
  | some s => if s = "" then d else s
  | none => d

/-- `assignee.displayName || assignee.name || 'Unassigned'` from the
aggregation pass of `GET /api/capacity`. -/
def assigneeName (a : Assignee) : String :=
  jsOrStr a.displayName (jsOrStr a.accountName "Unassigned")

/-- `String(iterationNum).padStart(2, '0')`. -/
def pad2 (n : Nat) : String :=
  let s := toString n
  String.mk (List.replicate (2 - s.length) '0') ++ s

/-- `const sprintName = pi + '_' + String(iterationNum).padStart(2,'0')`. -/
def sprintName (pi : String) (n : Nat) : String :=
  pi ++ "_" ++ pad2 n

/-- Outcome of one probe of the external issue source: either the
response was not ok (`err`, any transport or application failure), or it
was ok and carried a list of issues (`data.issues || []`). -/
inductive QueryResult where
  | err
  | ok (issues : List Issue)
deriving DecidableEq, Repr

/-- The probing loop of `GET /api/capacity`, entered at
`iterationNum = n` (the server starts it at 1).  Returns the list of
`(sprintName, issues)` pairs collected (`iterationsFound` /
`allIssues`, each issue tagged with the sprint it was fetched under)
together with the trace of sequence numbers actually probed.

The loop body, per the source: on a non-ok response stop; on an ok
response with zero issues stop; otherwise record the issues under the
sprint name and advance; after each pass the guard
`if (iterationNum > 50) keepFetching = false` bounds the loop. -/
def probeFrom (env : Nat → QueryResult) (pi : String) (n : Nat) :
    List (String × List Issue) × List Nat :=
  match env n with
  | .err => ([], [n])
  | .ok issues =>
    if issues.isEmpty then
      ([], [n])
    else if n + 1 > 50 then
      ([(sprintName pi n, issues)], [n])
    else
      let rest := probeFrom env pi (n + 1)
      ((sprintName pi n, issues) :: rest.1, n :: rest.2)
termination_by 51 - n
decreasing_by omega

/-- The probing loop as run by the endpoint: `iterationNum` starts at 1. -/
def probe (env : Nat → QueryResult) (pi : String) :
    List (String × List Issue) × List Nat :=
  probeFrom env pi 1

/-! ## Planned-work aggregation (`allIssues.forEach` of `GET /api/capacity`) -/

/-- A member entry of the `members` object: `{ name, capacity }` where
`capacity` is a string-keyed map from sprint name to accumulated
seconds, kept in insertion order. -/
structure Member where
  name : String
  capacity : List (String × Int)
deriving DecidableEq, Repr

/-- `members[an].capacity[iter] ??= 0; members[an].capacity[iter] += est`
on an insertion-ordered association list: an existing key is updated in
place, a missing key is appended with initial value `0 + est`. -/
def addToAssoc (l : List (String × Int)) (k : String) (v : Int) :
    List (String × Int) :=
  match l with
  | [] => [(k, v)]
  | p :: t => if p.1 = k then (p.1, p.2 + v) :: t else p :: addToAssoc t k v

/-- `members[an] ??= { name: an, capacity: {} }` followed by the
capacity update, on the insertion-ordered member list. -/
def addToMembers (ms : List Member) (an : String) (iter : String)
    (est : Int) : List Member :=
  match ms with
  | [] => [⟨an, [(iter, est)]⟩]
  | m :: t =>
    if m.name = an then ⟨m.name, addToAssoc m.capacity iter est⟩ :: t
    else m :: addToMembers t an iter est

/-- `iterations.add s` on a `Set` kept as an insertion-ordered list. -/
def addIter (l : List String) (s : String) : List String :=
  if s ∈ l then l else l ++ [s]

/-- One pass of the aggregation loop body over a tagged issue
`(sprintName, issue)`: an issue without assignee is skipped; otherwise
(the attached sprint name being truthy, i.e. nonempty) the remaining
estimate `timeestimate || 0` is added to the member's total for that
sprint and the sprint is recorded in the iteration set. -/
def aggStep (st : List Member × List String) (p : String × Issue) :
    List Member × List String :=
  match p.2.assignee with
  | none => st
  | some a =>
    if p.1 ≠ "" then
      (addToMembers st.1 (assigneeName a) p.1 (p.2.timeestimate.getD 0),
        addIter st.2 p.1)
    else st

/-- The aggregation pass: fold `aggStep` over all tagged issues,
starting from the empty `members` object and empty `iterations` set. -/
def aggregate (tagged : List (String × Issue)) :
    List Member × List String :=
  tagged.foldl aggStep ([], [])

/-- `allIssues` with each issue paired with its `_sprintName` tag, in
fetch order. -/
def taggedIssues (pairs : List (String × List Issue)) :
    List (String × Issue) :=
  pairs.flatMap (fun p => p.2.map (fun i => (p.1, i)))

/-- The planned total recorded for `(name, iter)`, when an entry
exists: lookup in the insertion-ordered association lists. -/
def plannedLookup (ms : List Member) (name iter : String) : Option Int :=
  (ms.find? (fun m => m.name == name)).bind
    (fun m => (m.capacity.find? (fun p => p.1 == iter)).map (·.2))

/-- Follows the spec's words: the contribution of one tagged issue to
the planned total of `(name, iter)` — its remaining estimate with null
treated as `0` when the issue is tagged with iteration `iter` (a
nonempty tag, as all prober tags are) and is assigned to a member
resolving to `name`; `0` otherwise, in particular for issues without
assignee. -/
def contribOf (name iter : String) (p : String × Issue) : Int :=
  match p.2.assignee with
  | some a =>
    if p.1 = iter ∧ p.1 ≠ "" ∧ assigneeName a = name then
      p.2.timeestimate.getD 0
    else 0
  | none => 0

/-- Follows the spec's words, for comparison with the implementation:
the planned total for `(name, iter)` is the sum of the contributions
of all tagged issues. -/
def specPlanned (tagged : List (String × Issue)) (name iter : String) :
    Int :=
  (tagged.map (contribOf name iter)).sum

/-! ## Baseline Capacity Loader (`getCapacityFromExcel`) -/

/-- A non-null spreadsheet cell value as produced by
`sheet_to_json(sheet, { header: 1 })`: a string or a number.  Numbers
are modelled as rationals.  (JS object keys stringify cell values; a
numeric cell used as a member name is kept as a distinct key here — the
claims under verification never depend on that coercion.) -/
inductive CellVal where
  | s (str : String)
  | n (val : ℚ)
deriving DecidableEq, Repr

/-- A cell of the parsed sheet: `none` is a `null`/`undefined` (blank)
cell. -/
abbrev Cell := Option CellVal

/-- The value returned by `getCapacityFromExcel` on success:
the member roster and `{ memberName: { iterationName: seconds } }`. -/
structure ExcelData where
  members : List CellVal
  capacity : List (CellVal × List (String × ℚ))
deriving DecidableEq, Repr

/-- `s.startsWith(p)` on the character sequences of the strings. -/
def strStartsWith (s p : String) : Bool :=
  p.data.isPrefixOf s.data

/-- `s.slice(n)` / dropping the first `n` characters. -/
def strDrop (s : String) (n : Nat) : String :=
  ⟨s.data.drop n⟩

/-- `row[0].replace(/^PI20/, '').replace(/^PI/, '')`: the two
replacements are applied in sequence, each stripping at most one
leading occurrence. -/
def normalizeIter (s : String) : String :=
  let s1 := if strStartsWith s "PI20" then strDrop s 4 else s
  if strStartsWith s1 "PI" then strDrop s1 2 else s1

/-- `capacityMap[name][iter] = v`: overwrite-or-append on the
insertion-ordered inner map. -/
def setIn (l : List (String × ℚ)) (k : String) (v : ℚ) :
    List (String × ℚ) :=
  match l with
  | [] => [(k, v)]
  | p :: t => if p.1 = k then (k, v) :: t else p :: setIn t k v

/-- `capacityMap[name][iter] = v` on the outer map.  (In the source the
outer key always exists, having been seeded from the roster; the
append fallback is unreachable there.) -/
def setCapa (cm : List (CellVal × List (String × ℚ))) (key : CellVal)
    (iter : String) (v : ℚ) : List (CellVal × List (String × ℚ)) :=
  match cm with
  | [] => [(key, [(iter, v)])]
  | p :: t =>
    if p.1 = key then (p.1, setIn p.2 iter v) :: t
    else p :: setCapa t key iter v

/-- `membersList.forEach((name, idx) => { const val = row[idx + 4];
if (typeof val === 'number') capacityMap[name][iter] = val * 3600; })`,
written with the running index `k` explicit. -/
def writeCapaFrom (row : List Cell) (iter : String) :
    Nat → List CellVal → List (CellVal × List (String × ℚ)) →
      List (CellVal × List (String × ℚ))
  | _, [], cm => cm
  | k, key :: rest, cm =>
    let cm' :=
      match row[k + 4]? with
      | some (some (.n v)) => setCapa cm key iter (v * 3600)
      | _ => cm
    writeCapaFrom row iter (k + 1) rest cm'

/-- The body of the row scan of `getCapacityFromExcel`: skip empty
rows; a string cell in column 0 starting with `"PI"` (re)sets the
current iteration to its normalized form; a `'CAPA'` cell in column 1,
while the current iteration is truthy (set and nonempty), records the
members' numeric cells of this row. -/
def processRow (membersList : List CellVal)
    (st : Option String × List (CellVal × List (String × ℚ)))
    (row : List Cell) :
    Option String × List (CellVal × List (String × ℚ)) :=
  if row.isEmpty then st
  else
    let cur : Option String :=
      match row.head? with
      | some (some (.s s)) =>
        if strStartsWith s "PI" then some (normalizeIter s) else st.1
      | _ => st.1
    let isCapa : Bool :=
      match row[1]? with
      | some (some (CellVal.s m)) => m == "CAPA"
      | _ => false
    let cm :=
      if (cur.getD "" != "") && isCapa then
        writeCapaFrom row (cur.getD "") 0 membersList st.2
      else st.2
    (cur, cm)

/-- The parsing half of `getCapacityFromExcel`, applied to the first
sheet already read as a grid of rows (`sheet_to_json(..., {header:1})`):
empty grid yields `null`; otherwise the roster is row 0 from column 4
on with null cells dropped, the capacity map is seeded with an empty
entry per roster cell, and every row (row 0 included, as in the
source's `for` loop) is scanned by `processRow`. -/
def getCapacityData (data : List (List Cell)) : Option ExcelData :=
  match data with
  | [] => none
  | row0 :: _ =>
    let membersList := (row0.drop 4).filterMap id
    let init := membersList.map (fun m => (m, ([] : List (String × ℚ))))
    let final := data.foldl (processRow membersList) (none, init)
    some ⟨membersList, final.2⟩

/-- `pi.replace('_', '')`: remove the first occurrence of `'_'`. -/
def removeFirstUS : List Char → List Char
  | [] => []
  | c :: t => if c = '_' then t else c :: removeFirstUS t

/-- `pi.replace('_', '')` on strings. -/
def stripFirstUnderscore (s : String) : String :=
  ⟨removeFirstUS s.data⟩

/-- The three accepted file names, in preference order, from
`getCapacityFromExcel`. -/
def possibleFilenames (pi : String) : List String :=
  ["PI_CAPA_20" ++ pi ++ ".xlsx",
    "PI_CAPA_" ++ pi ++ ".xlsx",
    "PI_CAPA_20" ++ stripFirstUnderscore pi ++ ".xlsx"]

/-- What reading a present spreadsheet file can do: raise a parse
exception (`throws`) or produce the first sheet as a grid. -/
inductive ReadResult where
  | throws
  | wb (data : List (List Cell))

/-- `getCapacityFromExcel`: the file system is abstracted as a partial
map from file name to read outcome (`none` = `fs.existsSync` is
false).  The first existing candidate name is read; a parse exception
anywhere in the `try` block yields `null`. -/
def getCapacityFromExcel (fsx : String → Option ReadResult)
    (pi : String) : Option ExcelData :=
  match (possibleFilenames pi).find? (fun nm => (fsx nm).isSome) with
  | none => none
  | some nm =>
    match fsx nm with
    | some (.wb d) => getCapacityData d
    | _ => none

/-! ## Upload handler (`POST /api/capacity/upload`) -/

/-- `path.extname` restricted to plain file names (no directory
separators): the suffix from the last `'.'`, or `""` when there is no
dot or the only relevant dot is the leading character. -/
def extname (s : String) : String :=
  match s.data.reverse.findIdx? (· = '.') with
  | none => ""
  | some i =>
    let pos := s.length - 1 - i
    if pos = 0 then "" else s.drop pos

/-- Response of the upload handler. -/
inductive UploadResp where
  | badRequest (msg : String)
  | okStored (filename : String)
deriving DecidableEq, Repr

/-- The upload endpoint after multer ran: `piField` is `req.body.pi`
(`none` = absent), `file` is the original name of the uploaded file
(`none` = no file; when present, multer has already written a temp
file with abstract content `tempContent`).  Returns the response, the
capacity-file store after the request (name → content), and whether
the temp file is left behind.  Per the source: a falsy `pi` or a
missing file is rejected with 400 (the temp file, if any, is not
unlinked on the missing-`pi` path); a non-`.xlsx` extension unlinks
the temp file and rejects; otherwise the temp file is renamed to
`PI_CAPA_20<pi>.xlsx`, overwriting any prior file of that name. -/
def uploadHandler (store : String → Option String)
    (piField : Option String) (file : Option String)
    (tempContent : String) :
    UploadResp × (String → Option String) × Bool :=
  if piField.getD "" = "" then
    (.badRequest "PI name is required", store, file.isSome)
  else
    match file with
    | none => (.badRequest "No file uploaded", store, false)
    | some orig =>
      if extname orig ≠ ".xlsx" then
        (.badRequest "Only .xlsx files are allowed", store, false)
      else
        let newName := "PI_CAPA_20" ++ (piField.getD "") ++ ".xlsx"
        (.okStored newName,
          fun nm => if nm = newName then some tempContent else store nm,
          false)

/-! ## Report assembly and merger -/

/-- The body of the `GET /api/capacity` response. -/
structure CapacityReport where
  pi : String
  iterations : List String
  members : List Member
  baselineCapacity : Option ExcelData

/-- The `GET /api/capacity` handler: probe, aggregate, sort, attach
the baseline.  `Array.from(iterations).sort()` is the default
code-unit lexicographic string sort.  The member sort
`(a, b) => a.name.localeCompare(b.name)` uses locale collation, which
depends on the runtime's locale data (e.g. `"alice"` collates before
`"Bob"`); it is abstracted as the comparator parameter `localeLe`,
where `localeLe a b` stands for `a.localeCompare(b) <= 0`. -/
def capacityHandler (env : Nat → QueryResult)
    (fsx : String → Option ReadResult)
    (localeLe : String → String → Bool) (pi : String) : CapacityReport :=
  let pairs := (probe env pi).1
  let agg := aggregate (taggedIssues pairs)
  { pi := pi
    iterations := agg.2.mergeSort (fun a b => decide (a ≤ b))
    members := agg.1.mergeSort (fun a b => localeLe a.name b.name)
    baselineCapacity := getCapacityFromExcel fsx pi }

/-- Classification band of a merged cell. -/
inductive CapClass where
  | red
  | yellow
  | normal
deriving DecidableEq, Repr

/-- Modelled from the spec: the classification step of the Capacity
Merger lives in the web front end, which is not part of the sources
under verification; per the spec, `ratio = planned / baseline`, with a
zero baseline treated as ratio 0 and flagged over-capacity when
planned is positive; `ratio > 1.05` is red, `1 < ratio ≤ 1.05` yellow,
`ratio ≤ 1` normal. -/
def classify (planned baseline : ℚ) : CapClass :=
  if baseline = 0 then
    if 0 < planned then .red else .normal
  else
    let ratio := planned / baseline
    if 21 / 20 < ratio then .red
    else if 1 < ratio then .yellow
    else .normal

/-- Lookup in the outer/inner association maps of the baseline data. -/
def lookupCM (cm : List (CellVal × List (String × ℚ))) (key : CellVal)
    (iter : String) : Option ℚ :=
  match cm.find? (fun p => p.1 == key) with
  | none => none
  | some p => (p.2.find? (fun q => q.1 == iter)).map (·.2)

/-- Modelled from the spec: the Capacity Merger's baseline lookup with
the fixed 80-hour (288000-second) default applied when the pair — or
the whole spreadsheet — is absent. -/
def baselineOrDefault (excel : Option ExcelData) (mname iter : String) :
    ℚ :=
  match excel with
  | none => 288000
  | some ed => (lookupCM ed.capacity (.s mname) iter).getD 288000

/-- The baseline value actually present for `(member, iteration)`, if
any: `none` both when no spreadsheet was found and when the pair is
missing from the parsed data. -/
def baselineLookup (excel : Option ExcelData) (mname iter : String) :
    Option ℚ :=
  excel.bind (fun ed => lookupCM ed.capacity (.s mname) iter)

/-- Modelled from the spec: the Capacity Merger emits, for every
member of the planned data and every iteration entry of that member, a
cell `(iteration, planned, baseline-or-default, classification)`. -/
def mergeReport (ms : List Member) (excel : Option ExcelData) :
    List (String × List (String × Int × ℚ × CapClass)) :=
  ms.map (fun m =>
    (m.name, m.capacity.map (fun c =>
      (c.1, c.2, baselineOrDefault excel m.name c.1,
        classify (c.2 : ℚ) (baselineOrDefault excel m.name c.1)))))

/-! ## Helper lemmas -/

theorem probeFrom_err {env : Nat → QueryResult} {pi : String} {n : Nat}
    (h : env n = .err) : probeFrom env pi n = ([], [n]) := by
  rw [probeFrom, h]

theorem probeFrom_empty {env : Nat → QueryResult} {pi : String} {n : Nat}
    (h : env n = .ok []) : probeFrom env pi n = ([], [n]) := by
  rw [probeFrom, h]
  simp

theorem probeFrom_cons {env : Nat → QueryResult} {pi : String} {n : Nat}
    {l : List Issue} (h : env n = .ok l) (hne : l ≠ []) (hn : n + 1 ≤ 50) :
    probeFrom env pi n =
      ((sprintName pi n, l) :: (probeFrom env pi (n + 1)).1,
        n :: (probeFrom env pi (n + 1)).2) := by
  rw [probeFrom, h]
  simp [List.isEmpty_iff, hne]
  omega

theorem probeFrom_last {env : Nat → QueryResult} {pi : String} {n : Nat}
    {l : List Issue} (h : env n = .ok l) (hne : l ≠ []) (hn : 50 < n + 1) :
    probeFrom env pi n = ([(sprintName pi n, l)], [n]) := by
  rw [probeFrom, h]
  simp [List.isEmpty_iff, hne]
  omega

/-- Every sequence number in the probe trace started at `n ≤ 50` lies in
`[n, 50]`; proved by induction on the fuel `f ≥ 51 - n`. -/
theorem probeFrom_probed_bounds (env : Nat → QueryResult) (pi : String) :
    ∀ f n, 51 - n ≤ f → n ≤ 50 →
      ∀ k ∈ (probeFrom env pi n).2, n ≤ k ∧ k ≤ 50 := by
  intro f
  induction f with
  | zero => intro n hf hn k _; omega
  | succ f ih =>
    intro n hf hn k hk
    cases he : env n with
    | err =>
      rw [probeFrom_err he] at hk
      simp at hk
      omega
    | ok l =>
      by_cases hl : l = []
      · subst hl
        rw [probeFrom_empty he] at hk
        simp at hk
        omega
      · by_cases h50 : n + 1 ≤ 50
        · rw [probeFrom_cons he hl h50] at hk
          simp at hk
          rcases hk with hk | hk
          · omega
          · have := ih (n + 1) (by omega) h50 k hk
            omega
        · rw [probeFrom_last he hl (by omega)] at hk
          simp at hk
          omega

/-- Updating key `k` makes its looked-up value the previous value (or
`0`) plus `v`. -/
theorem lookupA_addToAssoc_same (l : List (String × Int)) (k : String)
    (v : Int) :
    ((addToAssoc l k v).find? (fun p => p.1 == k)).map (·.2) =
      some (((l.find? (fun p => p.1 == k)).map (·.2)).getD 0 + v) := by
  induction l with
  | nil => simp [addToAssoc]
  | cons p t ih =>
    by_cases hp : p.1 = k
    · simp [addToAssoc, hp]
    · simp [addToAssoc, hp, ih]

/-- Updating key `k` leaves any other key's looked-up value alone. -/
theorem lookupA_addToAssoc_other (l : List (String × Int)) (k : String)
    (v : Int) (k' : String) (h : k' ≠ k) :
    ((addToAssoc l k v).find? (fun p => p.1 == k')).map (·.2) =
      (l.find? (fun p => p.1 == k')).map (·.2) := by
  induction l with
  | nil => simp [addToAssoc, Ne.symm h]
  | cons p t ih =>
    by_cases hp : p.1 = k
    · simp [addToAssoc, hp, Ne.symm h]
    · by_cases hp' : p.1 = k'
      · simp [addToAssoc, hp, hp', h]
      · simp [addToAssoc, hp, hp', ih]

/-- After `addToMembers`, the planned value of the touched pair is the
previous value (or `0`) plus the added estimate. -/
theorem plannedLookup_addToMembers_same (ms : List Member) (an iter : String)
    (est : Int) :
    plannedLookup (addToMembers ms an iter est) an iter =
      some ((plannedLookup ms an iter).getD 0 + est) := by
  induction ms with
  | nil => simp [addToMembers, plannedLookup, addToAssoc]
  | cons m t ih =>
    by_cases hm : m.name = an
    · simp [addToMembers, plannedLookup, hm, lookupA_addToAssoc_same]
    · simpa [addToMembers, plannedLookup, hm] using ih

/-- `addToMembers` on pair `(an, iter)` does not change the planned
value of any other pair. -/
theorem plannedLookup_addToMembers_other (ms : List Member)
    (an iter : String) (est : Int) (name' iter' : String)
    (h : ¬(name' = an ∧ iter' = iter)) :
    plannedLookup (addToMembers ms an iter est) name' iter' =
      plannedLookup ms name' iter' := by
  induction ms with
  | nil =>
    by_cases hn : name' = an
    · subst hn
      have hi : iter' ≠ iter := fun hi => h ⟨rfl, hi⟩
      simp [addToMembers, plannedLookup, Ne.symm hi]
    · simp [addToMembers, plannedLookup, Ne.symm hn]
  | cons m t ih =>
    by_cases hm : m.name = an
    · by_cases hn : name' = an
      · subst hn
        have hi : iter' ≠ iter := fun hi => h ⟨rfl, hi⟩
        simp [addToMembers, plannedLookup, hm,
          lookupA_addToAssoc_other _ _ _ _ hi]
      · simp [addToMembers, plannedLookup, hm, hn, Ne.symm hn]
    · by_cases hn : m.name = name'
      · have hna : name' ≠ an := fun hh => hm (hn.trans hh)
        simp [addToMembers, plannedLookup, hm, hn, hna]
      · simpa [addToMembers, plannedLookup, hm, hn] using ih

/-- One aggregation step changes the planned value of `(name, iter)` by
exactly the issue's contribution. -/
theorem plannedLookup_aggStep (st : List Member × List String)
    (p : String × Issue) (name iter : String) :
    (plannedLookup (aggStep st p).1 name iter).getD 0 =
      (plannedLookup st.1 name iter).getD 0 + contribOf name iter p := by
  cases ha : p.2.assignee with
  | none => simp [aggStep, ha, contribOf]
  | some a =>
    by_cases he : p.1 = ""
    · simp [aggStep, ha, he, contribOf]
    · by_cases hc : name = assigneeName a ∧ iter = p.1
      · obtain ⟨hn, hi⟩ := hc
        subst hn
        subst hi
        simp [aggStep, ha, he, contribOf, plannedLookup_addToMembers_same]
      · rw [show aggStep st p =
            (addToMembers st.1 (assigneeName a) p.1
                (p.2.timeestimate.getD 0), addIter st.2 p.1) by
          simp [aggStep, ha, he]]
        rw [plannedLookup_addToMembers_other _ _ _ _ _ _ hc]
        have : contribOf name iter p = 0 := by
          simp only [contribOf, ha]
          rw [if_neg]
          rintro ⟨h1, _, h3⟩
          exact hc ⟨h3.symm, h1.symm⟩
        omega

/-- Folding the aggregation step adds exactly the spec-side sum of
contributions to each planned value. -/
theorem foldl_aggStep_planned (name iter : String) :
    ∀ (l : List (String × Issue)) (st : List Member × List String),
      (plannedLookup (l.foldl aggStep st).1 name iter).getD 0 =
        (plannedLookup st.1 name iter).getD 0 + specPlanned l name iter := by
  intro l
  induction l with
  | nil => intro st; simp [specPlanned]
  | cons p t ih =>
    intro st
    rw [List.foldl_cons, ih, plannedLookup_aggStep]
    simp [specPlanned]
    omega

/-- Nonnegativity of all stored values is preserved by `addToAssoc`
with a nonnegative addend. -/
theorem addToAssoc_nonneg (l : List (String × Int)) (k : String)
    (v : Int) (hl : ∀ q ∈ l, 0 ≤ q.2) (hv : 0 ≤ v) :
    ∀ q ∈ addToAssoc l k v, 0 ≤ q.2 := by
  induction l with
  | nil => simpa [addToAssoc] using hv
  | cons p t ih =>
    by_cases hp : p.1 = k
    · intro q hq
      rw [addToAssoc] at hq
      simp [hp] at hq
      rcases hq with hq | hq
      · subst hq
        have h1 := hl p (by simp)
        simp
        omega
      · exact hl q (by simp [hq])
    · intro q hq
      rw [addToAssoc] at hq
      simp [hp] at hq
      rcases hq with hq | hq
      · exact hl q (by simp [hq])
      · exact ih (fun q hq => hl q (by simp [hq])) q hq

/-- Nonnegativity of all stored values is preserved by `addToMembers`
with a nonnegative estimate. -/
theorem addToMembers_nonneg (ms : List Member) (an iter : String)
    (est : Int) (hm : ∀ m ∈ ms, ∀ q ∈ m.capacity, 0 ≤ q.2)
    (hv : 0 ≤ est) :
    ∀ m ∈ addToMembers ms an iter est, ∀ q ∈ m.capacity, 0 ≤ q.2 := by
  induction ms with
  | nil =>
    intro m hmem
    rw [addToMembers] at hmem
    simp at hmem
    subst hmem
    simpa using hv
  | cons m0 t ih =>
    by_cases h0 : m0.name = an
    · intro m hmem
      rw [addToMembers] at hmem
      simp [h0] at hmem
      rcases hmem with hmem | hmem
      · subst hmem
        exact addToAssoc_nonneg _ _ _ (hm m0 (by simp)) hv
      · exact hm m (by simp [hmem])
    · intro m hmem
      rw [addToMembers] at hmem
      simp [h0] at hmem
      rcases hmem with hmem | hmem
      · exact hm m (by simp [hmem])
      · exact ih (fun m hm' => hm m (by simp [hm'])) m hmem

/-- Under nonnegative estimates, folding the aggregation step keeps
every stored planned value nonnegative. -/
theorem foldl_aggStep_nonneg :
    ∀ (l : List (String × Issue)) (st : List Member × List String),
      (∀ m ∈ st.1, ∀ q ∈ m.capacity, 0 ≤ q.2) →
      (∀ p ∈ l, 0 ≤ (p : String × Issue).2.timeestimate.getD 0) →
      ∀ m ∈ (l.foldl aggStep st).1, ∀ q ∈ m.capacity, 0 ≤ q.2 := by
  intro l
  induction l with
  | nil => intro st hst _; simpa using hst
  | cons p t ih =>
    intro st hst hl
    rw [List.foldl_cons]
    refine ih _ ?_ (fun p hp => hl p (by simp [hp]))
    cases ha : p.2.assignee with
    | none => simpa [aggStep, ha] using hst
    | some a =>
      by_cases he : p.1 = ""
      · simpa [aggStep, ha, he] using hst
      · have hstep : aggStep st p =
            (addToMembers st.1 (assigneeName a) p.1
              (p.2.timeestimate.getD 0), addIter st.2 p.1) := by
          simp [aggStep, ha, he]
        rw [hstep]
        exact addToMembers_nonneg _ _ _ _ hst (hl p (by simp))

/-- Issues without assignee are invisible to the aggregation: filtering
them out first changes nothing. -/
theorem foldl_aggStep_filter_assigned :
    ∀ (l : List (String × Issue)) (st : List Member × List String),
      (l.filter (fun p => p.2.assignee.isSome)).foldl aggStep st =
        l.foldl aggStep st := by
  intro l
  induction l with
  | nil => intro st; rfl
  | cons p t ih =>
    intro st
    cases ha : p.2.assignee with
    | none =>
      have hstep : aggStep st p = st := by simp [aggStep, ha]
      simp [List.filter_cons, ha, ih, hstep]
    | some a =>
      simp [List.filter_cons, ha, ih]

/-- A single contribution is nonnegative when the issue's defaulted
estimate is. -/
theorem contribOf_nonneg (name iter : String) (p : String × Issue)
    (h : 0 ≤ p.2.timeestimate.getD 0) : 0 ≤ contribOf name iter p := by
  cases ha : p.2.assignee with
  | none => simp [contribOf, ha]
  | some a =>
    simp only [contribOf, ha]
    split
    · exact h
    · exact le_refl 0

/-- The spec-side planned sum is nonnegative under nonnegative
estimates. -/
theorem specPlanned_nonneg (l : List (String × Issue)) (name iter : String)
    (h : ∀ p ∈ l, 0 ≤ (p : String × Issue).2.timeestimate.getD 0) :
    0 ≤ specPlanned l name iter := by
  induction l with
  | nil => simp [specPlanned]
  | cons p t ih =>
    have h1 := contribOf_nonneg name iter p (h p (by simp))
    have ht := ih (fun p hp => h p (by simp [hp]))
    simp only [specPlanned, List.map_cons, List.sum_cons] at ht ⊢
    omega

/-- Overwriting key `k` makes its looked-up value exactly `v`. -/
theorem lookupQ_setIn_same (l : List (String × ℚ)) (k : String) (v : ℚ) :
    ((setIn l k v).find? (fun q => q.1 == k)).map (·.2) = some v := by
  induction l with
  | nil => simp [setIn]
  | cons p t ih =>
    by_cases hp : p.1 = k
    · simp [setIn, hp]
    · simp [setIn, hp, ih]

/-- Writing to outer key `key` makes the looked-up value at
`(key, iter)` exactly `v`. -/
theorem lookupCM_setCapa_same (cm : List (CellVal × List (String × ℚ)))
    (key : CellVal) (iter : String) (v : ℚ) :
    lookupCM (setCapa cm key iter v) key iter = some v := by
  induction cm with
  | nil => simp [setCapa, lookupCM]
  | cons p t ih =>
    by_cases hp : p.1 = key
    · simp [setCapa, lookupCM, hp, lookupQ_setIn_same]
    · simpa [setCapa, lookupCM, hp] using ih

/-- Writing to outer key `key` leaves every other outer key's data
unchanged. -/
theorem lookupCM_setCapa_other (cm : List (CellVal × List (String × ℚ)))
    (key : CellVal) (iter : String) (v : ℚ) (key' : CellVal)
    (iter' : String) (h : key' ≠ key) :
    lookupCM (setCapa cm key iter v) key' iter' = lookupCM cm key' iter' := by
  induction cm with
  | nil => simp [setCapa, lookupCM, Ne.symm h]
  | cons p t ih =>
    by_cases hp : p.1 = key
    · simp [setCapa, lookupCM, hp, Ne.symm h]
    · by_cases hp' : p.1 = key'
      · simp [setCapa, lookupCM, hp, hp', h]
      · simpa [setCapa, lookupCM, hp, hp'] using ih

/-- A capacity row writes nothing under a roster key that does not
occur in the member list being traversed. -/
theorem lookupCM_writeCapaFrom_not_mem (row : List Cell) (iter : String) :
    ∀ (l : List CellVal) (k : Nat)
      (cm : List (CellVal × List (String × ℚ))) (key : CellVal)
      (iter' : String), key ∉ l →
      lookupCM (writeCapaFrom row iter k l cm) key iter' =
        lookupCM cm key iter' := by
  intro l
  induction l with
  | nil => intro k cm key iter' _; rfl
  | cons nm rest ih =>
    intro k cm key iter' hmem
    have hne : key ≠ nm := fun h => hmem (h ▸ List.mem_cons_self nm rest)
    have hrest : key ∉ rest := fun h => hmem (List.mem_cons_of_mem nm h)
    cases hrow : row[k + 4]? with
    | none =>
      rw [writeCapaFrom]
      simp only [hrow]
      exact ih (k + 1) cm key iter' hrest
    | some cell =>
      cases cell with
      | none =>
        rw [writeCapaFrom]
        simp only [hrow]
        exact ih (k + 1) cm key iter' hrest
      | some cv =>
        cases cv with
        | s str =>
          rw [writeCapaFrom]
          simp only [hrow]
          exact ih (k + 1) cm key iter' hrest
        | n val =>
          rw [writeCapaFrom]
          simp only [hrow]
          rw [ih (k + 1) _ key iter' hrest]
          exact lookupCM_setCapa_other _ _ _ _ _ _ hne

/-- What a capacity row records for the `j`-th member of a
duplicate-free roster: the numeric cell at its column offset `k+j+4`
times 3600, and the previous data when that cell is not numeric. -/
theorem lookupCM_writeCapaFrom (row : List Cell) (iter : String) :
    ∀ (l : List CellVal) (k : Nat)
      (cm : List (CellVal × List (String × ℚ))), l.Nodup →
      ∀ j, (hj : j < l.length) →
      lookupCM (writeCapaFrom row iter k l cm) l[j] iter =
        (match row[k + j + 4]? with
          | some (some (.n v)) => some (v * 3600)
          | _ => lookupCM cm l[j] iter) := by
  intro l
  induction l with
  | nil => intro k cm _ j hj; simp at hj
  | cons nm rest ih =>
    intro k cm hnd j hj
    have hnm : nm ∉ rest := (List.nodup_cons.mp hnd).1
    have hnd' : rest.Nodup := (List.nodup_cons.mp hnd).2
    cases j with
    | zero =>
      have hzero : (nm :: rest)[0] = nm := rfl
      rw [hzero]
      cases hrow : row[k + 0 + 4]? with
      | none =>
        rw [writeCapaFrom]
        simp only [show k + 4 = k + 0 + 4 by omega, hrow]
        exact lookupCM_writeCapaFrom_not_mem row iter rest (k + 1) cm nm
          iter hnm
      | some cell =>
        cases cell with
        | none =>
          rw [writeCapaFrom]
          simp only [show k + 4 = k + 0 + 4 by omega, hrow]
          exact lookupCM_writeCapaFrom_not_mem row iter rest (k + 1) cm nm
            iter hnm
        | some cv =>
          cases cv with
          | s str =>
            rw [writeCapaFrom]
            simp only [show k + 4 = k + 0 + 4 by omega, hrow]
            exact lookupCM_writeCapaFrom_not_mem row iter rest (k + 1) cm
              nm iter hnm
          | n val =>
            rw [writeCapaFrom]
            simp only [show k + 4 = k + 0 + 4 by omega, hrow]
            rw [lookupCM_writeCapaFrom_not_mem row iter rest (k + 1) _ nm
              iter hnm]
            exact lookupCM_setCapa_same _ _ _ _
    | succ j' =>
      have hj' : j' < rest.length := by simpa using hj
      have hget : (nm :: rest)[j' + 1] = rest[j'] := rfl
      rw [hget]
      have hidx : k + 1 + j' + 4 = k + (j' + 1) + 4 := by omega
      have hne : rest[j'] ≠ nm := by
        intro h
        exact hnm (h ▸ List.getElem_mem hj')
      cases hrow0 : row[k + 4]? with
      | none =>
        rw [writeCapaFrom]
        simp only [hrow0]
        rw [ih (k + 1) cm hnd' j' hj', hidx]
      | some cell =>
        cases cell with
        | none =>
          rw [writeCapaFrom]
          simp only [hrow0]
          rw [ih (k + 1) cm hnd' j' hj', hidx]
        | some cv =>
          cases cv with
          | s str =>
            rw [writeCapaFrom]
            simp only [hrow0]
            rw [ih (k + 1) cm hnd' j' hj', hidx]
          | n val =>
            rw [writeCapaFrom]
            simp only [hrow0]
            rw [ih (k + 1) _ hnd' j' hj', hidx]
            cases hrow : row[k + (j' + 1) + 4]? with
            | none =>
              simp only [hrow]
              exact lookupCM_setCapa_other _ _ _ _ _ _ hne
            | some cell' =>
              cases cell' with
              | none =>
                simp only [hrow]
                exact lookupCM_setCapa_other _ _ _ _ _ _ hne
              | some cv' =>
                cases cv' with
                | s str' =>
                  simp only [hrow]
                  exact lookupCM_setCapa_other _ _ _ _ _ _ hne
                | n val' => simp only [hrow]

set_option maxHeartbeats 1000000 in
set_option maxRecDepth 10000 in
/-- Zero-padded two-digit numerals compare lexicographically as
numbers, for sequence numbers below 100 (finite check). -/
theorem pad2_toList_lex :
    ∀ m, m < 100 → ∀ n, n < 100 → 0 < m → m < n →
      List.Lex (· < ·) (pad2 m).toList (pad2 n).toList := by decide

/-- Appending on the left preserves strict lexicographic order of
strings. -/
theorem append_lt_left (p a b : String) (h : a < b) : p ++ a < p ++ b := by
  rw [String.lt_iff_toList_lt] at h ⊢
  show List.Lex (· < ·) (p ++ a).toList (p ++ b).toList
  have ea : (p ++ a).toList = p.toList ++ a.toList := rfl
  have eb : (p ++ b).toList = p.toList ++ b.toList := rfl
  rw [ea, eb]
  exact List.Lex.append_left _ h _

/-- Within one program increment, lexicographic order of canonical
iteration names agrees with numeric sequence order (padding to two
digits). -/
theorem sprintName_lt (pi : String) (m n : Nat) (hm : 0 < m)
    (hmn : m < n) (hn : n < 100) :
    sprintName pi m < sprintName pi n := by
  have hpad : pad2 m < pad2 n :=
    String.lt_iff_toList_lt.mpr (pad2_toList_lex m (by omega) n hn hm hmn)
  have h2 := append_lt_left (pi ++ "_") _ _ hpad
  simpa [sprintName, String.append_assoc] using h2

/-! ## Claims -/

/-- C3: the aggregator's planned total for `(member, iteration)` equals
the sum, over issues tagged with that iteration and assigned to that
member, of their defaulted remaining estimates; unassigned issues are
discarded entirely; the member name resolves as display name, then
account identifier, then the literal `"Unassigned"`; and under
nonnegative estimates every stored entry is nonnegative and totals only
grow as the pass extends (any prefix of the pass yields at most the
final total). -/
theorem aggregator_planned_totals (tagged : List (String × Issue))
    (name iter : String) :
    (plannedLookup (aggregate tagged).1 name iter).getD 0 =
      specPlanned tagged name iter ∧
    aggregate (tagged.filter (fun p => p.2.assignee.isSome)) =
      aggregate tagged ∧
    ((∀ p ∈ tagged, 0 ≤ (p : String × Issue).2.timeestimate.getD 0) →
      ∀ m ∈ (aggregate tagged).1, ∀ q ∈ m.capacity, 0 ≤ q.2) ∧
    ((∀ p ∈ tagged, 0 ≤ (p : String × Issue).2.timeestimate.getD 0) →
      ∀ l₁ l₂ : List (String × Issue), tagged = l₁ ++ l₂ →
        specPlanned l₁ name iter ≤ specPlanned tagged name iter) ∧
    (∀ s acc, s ≠ "" → assigneeName ⟨some s, acc⟩ = s) ∧
    (∀ s, s ≠ "" → assigneeName ⟨none, some s⟩ = s) ∧
    assigneeName ⟨none, none⟩ = "Unassigned" := by
  refine ⟨?_, ?_, ?_, ?_, ?_, ?_, rfl⟩
  · have h := foldl_aggStep_planned name iter tagged ([], [])
    simpa [aggregate, plannedLookup] using h
  · exact foldl_aggStep_filter_assigned tagged ([], [])
  · intro h
    exact foldl_aggStep_nonneg tagged ([], []) (by simp) h
  · intro h l₁ l₂ hsplit
    subst hsplit
    have hsum : specPlanned (l₁ ++ l₂) name iter =
        specPlanned l₁ name iter + specPlanned l₂ name iter := by
      simp [specPlanned]
    have hnn : 0 ≤ specPlanned l₂ name iter :=
      specPlanned_nonneg l₂ name iter
        (fun p hp => h p (by simp [hp]))
    omega
  · intro s acc hs
    simp [assigneeName, jsOrStr, hs]
  · intro s hs
    simp [assigneeName, jsOrStr, hs]

/-- Witness for C3 on a concrete pass: two issues for Alice in
iteration 01 (one with a null estimate), one unassigned issue, and one
issue resolved through the account-identifier fallback. -/
theorem aggregator_planned_totals_witness :
    (plannedLookup
        (aggregate
          [("26_04_01", ⟨some ⟨some "Alice", none⟩, some 3600⟩),
            ("26_04_01", ⟨some ⟨some "Alice", none⟩, none⟩),
            ("26_04_01", ⟨none, some 999⟩),
            ("26_04_02", ⟨some ⟨none, some "bob-id"⟩, some 100⟩)]).1
        "Alice" "26_04_01").getD 0 =
      specPlanned
        [("26_04_01", ⟨some ⟨some "Alice", none⟩, some 3600⟩),
          ("26_04_01", ⟨some ⟨some "Alice", none⟩, none⟩),
          ("26_04_01", ⟨none, some 999⟩),
          ("26_04_02", ⟨some ⟨none, some "bob-id"⟩, some 100⟩)]
        "Alice" "26_04_01" ∧
    (∀ m ∈ (aggregate
        [("26_04_01", ⟨some ⟨some "Alice", none⟩, some 3600⟩),
          ("26_04_01", ⟨some ⟨some "Alice", none⟩, none⟩),
          ("26_04_01", ⟨none, some 999⟩),
          ("26_04_02", ⟨some ⟨none, some "bob-id"⟩, some 100⟩)]).1,
      ∀ q ∈ m.capacity, 0 ≤ q.2) := by
  have h := aggregator_planned_totals
    [("26_04_01", ⟨some ⟨some "Alice", none⟩, some 3600⟩),
      ("26_04_01", ⟨some ⟨some "Alice", none⟩, none⟩),
      ("26_04_01", ⟨none, some 999⟩),
      ("26_04_02", ⟨some ⟨none, some "bob-id"⟩, some 100⟩)]
    "Alice" "26_04_01"
  exact ⟨h.1, h.2.2.1 (by decide)⟩

/-- C1: for every program increment `pi`, the probing loop queries
iterations `<pi>_01, <pi>_02, ...` in order; a successful query with
zero issues stops the loop at once.  If iterations 1–5 each return at
least one issue and iteration 6 returns zero issues, exactly the five
pairs for 01–05 are returned, the probed sequence numbers are exactly
1–6, and 7 is never probed. -/
theorem prober_stops_on_empty (env : Nat → QueryResult) (pi : String)
    (h : ∀ k, 1 ≤ k → k ≤ 5 → ∃ l, env k = .ok l ∧ l ≠ [])
    (h6 : env 6 = .ok []) :
    (probe env pi).1.length = 5 ∧
    (probe env pi).1.map Prod.fst =
      [sprintName pi 1, sprintName pi 2, sprintName pi 3,
        sprintName pi 4, sprintName pi 5] ∧
    (probe env pi).2 = [1, 2, 3, 4, 5, 6] ∧
    7 ∉ (probe env pi).2 := by
  obtain ⟨l1, e1, n1⟩ := h 1 (by norm_num) (by norm_num)
  obtain ⟨l2, e2, n2⟩ := h 2 (by norm_num) (by norm_num)
  obtain ⟨l3, e3, n3⟩ := h 3 (by norm_num) (by norm_num)
  obtain ⟨l4, e4, n4⟩ := h 4 (by norm_num) (by norm_num)
  obtain ⟨l5, e5, n5⟩ := h 5 (by norm_num) (by norm_num)
  rw [probe, probeFrom_cons e1 n1 (by norm_num),
    probeFrom_cons e2 n2 (by norm_num),
    probeFrom_cons e3 n3 (by norm_num),
    probeFrom_cons e4 n4 (by norm_num),
    probeFrom_cons e5 n5 (by norm_num),
    probeFrom_empty h6]
  refine ⟨by simp, by simp, by simp, by simp⟩

/-- Witness for C1 at a concrete backend: iterations 1–5 return one
issue each, iteration 6 returns none. -/
theorem prober_stops_on_empty_witness :
    (probe (fun k => if k ≤ 5 then .ok [⟨none, none⟩] else .ok [])
        "26_04").1.length = 5 ∧
    (probe (fun k => if k ≤ 5 then .ok [⟨none, none⟩] else .ok [])
        "26_04").1.map Prod.fst =
      [sprintName "26_04" 1, sprintName "26_04" 2, sprintName "26_04" 3,
        sprintName "26_04" 4, sprintName "26_04" 5] ∧
    (probe (fun k => if k ≤ 5 then .ok [⟨none, none⟩] else .ok [])
        "26_04").2 = [1, 2, 3, 4, 5, 6] ∧
    7 ∉ (probe (fun k => if k ≤ 5 then .ok [⟨none, none⟩] else .ok [])
        "26_04").2 :=
  prober_stops_on_empty _ "26_04"
    (fun k hk1 hk5 => ⟨[⟨none, none⟩], by simp [hk5], by simp⟩)
    (by norm_num)

/-- C2: if the first query returns issues and the second fails, the
loop stops with exactly the first iteration collected (probing exactly
sequence numbers 1 and 2), and the request still completes normally:
the handler produces the ordinary report built from that single
iteration's data — the failure is surfaced only as the end of the
range, never as an error response. -/
theorem prober_fail_stop (env : Nat → QueryResult)
    (fsx : String → Option ReadResult)
    (localeLe : String → String → Bool) (pi : String) (l : List Issue)
    (hne : l ≠ []) (h1 : env 1 = .ok l) (h2 : env 2 = .err) :
    (probe env pi).1 = [(sprintName pi 1, l)] ∧
    (probe env pi).2 = [1, 2] ∧
    capacityHandler env fsx localeLe pi =
      { pi := pi
        iterations :=
          (aggregate (taggedIssues [(sprintName pi 1, l)])).2.mergeSort
            (fun a b => decide (a ≤ b))
        members :=
          (aggregate (taggedIssues [(sprintName pi 1, l)])).1.mergeSort
            (fun a b => localeLe a.name b.name)
        baselineCapacity := getCapacityFromExcel fsx pi } := by
  have hp : probe env pi = ([(sprintName pi 1, l)], [1, 2]) := by
    rw [probe, probeFrom_cons h1 hne (by norm_num), probeFrom_err h2]
  refine ⟨by rw [hp], by rw [hp], ?_⟩
  simp only [capacityHandler, hp]

/-- Witness for C2 at a concrete backend: iteration 1 returns one
issue, iteration 2 fails. -/
theorem prober_fail_stop_witness :
    (probe (fun k => if k = 1 then .ok [⟨none, none⟩] else .err)
        "26_04").1 = [(sprintName "26_04" 1, [⟨none, none⟩])] ∧
    (probe (fun k => if k = 1 then .ok [⟨none, none⟩] else .err)
        "26_04").2 = [1, 2] ∧
    capacityHandler (fun k => if k = 1 then .ok [⟨none, none⟩] else .err)
        (fun _ => none) (fun a b => decide (a ≤ b)) "26_04" =
      { pi := "26_04"
        iterations :=
          (aggregate (taggedIssues
            [(sprintName "26_04" 1, [⟨none, none⟩])])).2.mergeSort
            (fun a b => decide (a ≤ b))
        members :=
          (aggregate (taggedIssues
            [(sprintName "26_04" 1, [⟨none, none⟩])])).1.mergeSort
            (fun a b => decide (a.name ≤ b.name))
        baselineCapacity :=
          getCapacityFromExcel (fun _ => none) "26_04" } :=
  prober_fail_stop _ _ (fun a b => decide (a ≤ b)) "26_04" [⟨none, none⟩]
    (by simp) rfl rfl

/-- C10: the probing loop always terminates (it is a total function of
the backend's responses), and the probed sequence number never exceeds
the hard bound of 50, whatever the backend answers — in particular
against a backend that returns issues on every probe. -/
theorem prober_probes_bounded (env : Nat → QueryResult) (pi : String) :
    ∀ k ∈ (probe env pi).2, 1 ≤ k ∧ k ≤ 50 := by
  intro k hk
  exact probeFrom_probed_bounds env pi 51 1 (by norm_num) (by norm_num) k hk

/-- Witness for C10 against a backend that always returns an issue:
sequence number 1 is probed and lies within the bound. -/
theorem prober_probes_bounded_witness :
    1 ∈ (probe (fun _ => .ok [⟨none, none⟩]) "26_04").2 ∧
    (1 ≤ 1 ∧ 1 ≤ 50) := by
  have hm : 1 ∈ (probe (fun _ => QueryResult.ok [⟨none, none⟩]) "26_04").2 := by
    rw [probe, probeFrom_cons rfl (by simp) (by norm_num)]
    exact List.mem_cons_self _ _
  exact ⟨hm, prober_probes_bounded _ "26_04" 1 hm⟩

/-- Counterexample to C9 as stated: a locale collation puts `"alice"`
before `"Bob"` (`"alice".localeCompare("Bob") < 0` under standard
collation), so a report whose sprint has issues assigned to `alice`
and `Bob` emits its members in that order — which is not
lexicographically sorted by name, since `"Bob" < "alice"` in
code-point order. -/
theorem report_members_locale_order_cex :
    ((capacityHandler
        (fun k => if k = 1 then
            .ok [⟨some ⟨some "alice", none⟩, some 1⟩,
              ⟨some ⟨some "Bob", none⟩, some 1⟩]
          else .ok [])
        (fun _ => none)
        (fun a b => if a = "alice" then true else a == b)
        "26_04").members.map Member.name = ["alice", "Bob"]) ∧
    ¬ List.Sorted (fun a b : String => a ≤ b) ["alice", "Bob"] := by
  constructor
  · have hp : probe
        (fun k => if k = 1 then
            QueryResult.ok [⟨some ⟨some "alice", none⟩, some 1⟩,
              ⟨some ⟨some "Bob", none⟩, some 1⟩]
          else .ok []) "26_04" =
        ([(sprintName "26_04" 1,
          [⟨some ⟨some "alice", none⟩, some 1⟩,
            ⟨some ⟨some "Bob", none⟩, some 1⟩])], [1, 2]) := by
      rw [probe, probeFrom_cons rfl (by simp) (by norm_num),
        probeFrom_empty rfl]
    simp only [capacityHandler, hp]
    rw [show sprintName "26_04" 1 = "26_04_01" from by decide]
    rw [show (aggregate (taggedIssues
        [("26_04_01",
          [⟨some ⟨some "alice", none⟩, some 1⟩,
            ⟨some ⟨some "Bob", none⟩, some 1⟩])])).1 =
      [⟨"alice", [("26_04_01", 1)]⟩, ⟨"Bob", [("26_04_01", 1)]⟩]
      from by decide]
    rw [List.mergeSort_of_sorted (by simp [List.pairwise_cons])]
    rfl
  · intro hs
    have h1 : ("alice" : String) ≤ "Bob" :=
      (List.pairwise_cons.mp hs).1 "Bob" (by simp)
    have hBa : ("Bob" : String) < "alice" :=
      String.lt_iff_toList_lt.mpr (by decide)
    exact absurd h1 (not_le.mpr hBa)

/-- C9 (amended): in every emitted report the iterations list is
sorted lexicographically ascending (which coincides with numeric
sequence order for zero-padded sequence numbers within one program
increment, third conjunct); the members list is sorted by the
locale-collation comparator the program passes to `sort` — for every
transitive and total collation it is sorted with respect to that
collation, though not necessarily in code-point lexicographic
order. -/
theorem report_sorted (env : Nat → QueryResult)
    (fsx : String → Option ReadResult)
    (localeLe : String → String → Bool)
    (htrans : ∀ a b c, localeLe a b = true → localeLe b c = true →
      localeLe a c = true)
    (htotal : ∀ a b, localeLe a b || localeLe b a)
    (pi : String) :
    List.Sorted (· ≤ ·)
      (capacityHandler env fsx localeLe pi).iterations ∧
    List.Pairwise (fun a b : Member => localeLe a.name b.name)
      (capacityHandler env fsx localeLe pi).members ∧
    (∀ m n : Nat, 0 < m → m < n → n < 100 →
      sprintName pi m < sprintName pi n) := by
  refine ⟨?_, ?_, fun m n hm hmn hn => sprintName_lt pi m n hm hmn hn⟩
  · have h := @List.sorted_mergeSort String
      (fun a b : String => decide (a ≤ b))
      (fun a b c hab hbc => decide_eq_true
        (le_trans (of_decide_eq_true hab) (of_decide_eq_true hbc)))
      (fun a b => by simpa using le_total a b)
      (aggregate (taggedIssues (probe env pi).1)).2
    exact h.imp (fun hab => of_decide_eq_true hab)
  · exact @List.sorted_mergeSort Member
      (fun a b : Member => localeLe a.name b.name)
      (fun a b c hab hbc => htrans a.name b.name c.name hab hbc)
      (fun a b => htotal a.name b.name)
      (aggregate (taggedIssues (probe env pi).1)).1

/-- Witness for C9 (amended), instantiating the collation with the
code-point order: sortedness of a concrete report and the agreement of
canonical-name order with numeric order at a concrete pair. -/
theorem report_sorted_witness :
    List.Sorted (· ≤ ·)
      (capacityHandler (fun _ => .ok []) (fun _ => none)
        (fun a b => decide (a ≤ b)) "26_04").iterations ∧
    List.Pairwise
      (fun a b : Member => decide (a.name ≤ b.name) = true)
      (capacityHandler (fun _ => .ok []) (fun _ => none)
        (fun a b => decide (a ≤ b)) "26_04").members ∧
    sprintName "26_04" 1 < sprintName "26_04" 2 := by
  have h := report_sorted (fun _ => .ok []) (fun _ => none)
    (fun a b => decide (a ≤ b))
    (fun a b c hab hbc => decide_eq_true
      (le_trans (of_decide_eq_true hab) (of_decide_eq_true hbc)))
    (fun a b => by simpa using le_total a b) "26_04"
  exact ⟨h.1, h.2.1, h.2.2 1 2 (by norm_num) (by norm_num) (by norm_num)⟩

/-- C7: the Baseline Capacity Loader is total in its error behavior:
the candidate file names derived from `pi` are exactly the
"20"-prefixed expansion, the raw form, and the separator-stripped
form, in that preference order; when none of them exists the loader
returns the explicit "no baseline" result `none` (never an error); a
parse exception while reading the found file also yields `none`; and
when the first candidate exists and parses, it is the one used. -/
theorem loader_never_errors (fsx : String → Option ReadResult)
    (pi : String) :
    possibleFilenames pi =
      ["PI_CAPA_20" ++ pi ++ ".xlsx", "PI_CAPA_" ++ pi ++ ".xlsx",
        "PI_CAPA_20" ++ stripFirstUnderscore pi ++ ".xlsx"] ∧
    ((∀ nm ∈ possibleFilenames pi, fsx nm = none) →
      getCapacityFromExcel fsx pi = none) ∧
    (∀ nm, (possibleFilenames pi).find? (fun s => (fsx s).isSome) = some nm →
      fsx nm = some .throws → getCapacityFromExcel fsx pi = none) ∧
    (∀ d, fsx ("PI_CAPA_20" ++ pi ++ ".xlsx") = some (.wb d) →
      getCapacityFromExcel fsx pi = getCapacityData d) := by
  refine ⟨rfl, ?_, ?_, ?_⟩
  · intro h
    have h1 := h ("PI_CAPA_20" ++ pi ++ ".xlsx") (by simp [possibleFilenames])
    have h2 := h ("PI_CAPA_" ++ pi ++ ".xlsx") (by simp [possibleFilenames])
    have h3 := h ("PI_CAPA_20" ++ stripFirstUnderscore pi ++ ".xlsx")
      (by simp [possibleFilenames])
    simp [getCapacityFromExcel, possibleFilenames, List.find?, h1, h2, h3]
  · intro nm hfind hthrows
    simp [getCapacityFromExcel, hfind, hthrows]
  · intro d hd
    simp [getCapacityFromExcel, possibleFilenames, List.find?, hd]

/-- Witness for C7: with no spreadsheet on disk at all, the loader
returns the "no baseline" result for PI `26_04`. -/
theorem loader_never_errors_witness :
    (∀ nm ∈ possibleFilenames "26_04",
      (fun _ => (none : Option ReadResult)) nm = none) ∧
    getCapacityFromExcel (fun _ => none) "26_04" = none :=
  ⟨fun _ _ => rfl,
    (loader_never_errors (fun _ => none) "26_04").2.1 (fun _ _ => rfl)⟩

/-- Counterexample to C8 as stated: a request with a file but no `pi`
field is an invalid upload and is rejected with a client error, yet
the partially-received temp file is NOT removed (the missing-`pi`
branch returns before any unlink), contradicting "the
partially-received temp file is removed". -/
theorem upload_temp_not_removed_cex :
    (uploadHandler (fun _ => none) none (some "plan.xlsx") "content").1 =
      .badRequest "PI name is required" ∧
    (uploadHandler (fun _ => none) none (some "plan.xlsx") "content").2.2 =
      true :=
  ⟨rfl, rfl⟩

/-- C8 (amended): every invalid upload — missing `pi` field, missing
file, or a file whose extension is not `.xlsx` — is rejected with a
client error and the stored capacity files are left untouched; the
temp file is removed in the bad-extension case (and in the
missing-file case none exists), but a temp file received alongside a
missing `pi` field is left in place; a valid upload stores the file
under the canonical name `PI_CAPA_20<pi>.xlsx`, overwriting any prior
file of that name and leaving every other stored file unchanged. -/
theorem upload_validation (store : String → Option String)
    (p orig tempContent : String) :
    (∀ f : Option String,
      (uploadHandler store none f tempContent).1 =
        .badRequest "PI name is required" ∧
      (uploadHandler store none f tempContent).2.1 = store) ∧
    (uploadHandler store none (some orig) tempContent).2.2 = true ∧
    (p ≠ "" → uploadHandler store (some p) none tempContent =
      (.badRequest "No file uploaded", store, false)) ∧
    (p ≠ "" → extname orig ≠ ".xlsx" →
      uploadHandler store (some p) (some orig) tempContent =
        (.badRequest "Only .xlsx files are allowed", store, false)) ∧
    (p ≠ "" → extname orig = ".xlsx" →
      (uploadHandler store (some p) (some orig) tempContent).1 =
        .okStored ("PI_CAPA_20" ++ p ++ ".xlsx") ∧
      (uploadHandler store (some p) (some orig) tempContent).2.1
          ("PI_CAPA_20" ++ p ++ ".xlsx") = some tempContent ∧
      (∀ nm, nm ≠ "PI_CAPA_20" ++ p ++ ".xlsx" →
        (uploadHandler store (some p) (some orig) tempContent).2.1 nm =
          store nm) ∧
      (uploadHandler store (some p) (some orig) tempContent).2.2 =
        false) := by
  refine ⟨fun f => ⟨rfl, rfl⟩, rfl, ?_, ?_, ?_⟩
  · intro hp
    simp [uploadHandler, hp]
  · intro hp hext
    simp [uploadHandler, hp, hext]
  · intro hp hext
    refine ⟨?_, ?_, ?_, ?_⟩ <;>
      simp [uploadHandler, hp, hext]
    intro nm hnm
    simp [hnm]

/-- Witness for C8 (amended) at concrete requests: uploading
`plan.xlsx` for PI `26_04` stores `PI_CAPA_2026_04.xlsx` with the
uploaded content, and uploading `plan.txt` is rejected. -/
theorem upload_validation_witness :
    (uploadHandler (fun _ => none) (some "26_04") (some "plan.xlsx")
        "c").1 = .okStored "PI_CAPA_2026_04.xlsx" ∧
    (uploadHandler (fun _ => none) (some "26_04") (some "plan.xlsx")
        "c").2.1 "PI_CAPA_2026_04.xlsx" = some "c" ∧
    uploadHandler (fun _ => none) (some "26_04") (some "plan.txt") "c" =
      (.badRequest "Only .xlsx files are allowed", fun _ => none,
        false) := by
  have h := upload_validation (fun _ => none) "26_04" "plan.xlsx" "c"
  have hv := h.2.2.2.2 (by decide) (by decide)
  have h' := upload_validation (fun _ => none) "26_04" "plan.txt" "c"
  exact ⟨hv.1, hv.2.1, h'.2.2.2.1 (by decide) (by decide)⟩

/-- The applied default: the merger's baseline-or-default is the
present baseline value when there is one and 288000 seconds
otherwise. -/
theorem baselineOrDefault_eq (excel : Option ExcelData)
    (mname iter : String) :
    baselineOrDefault excel mname iter =
      (baselineLookup excel mname iter).getD 288000 := by
  cases excel <;> rfl

/-- C4: for every `(member, iteration)` pair present in planned data,
the merger emits an entry (it never drops one); its planned value is
the aggregated one, its baseline is the looked-up value when present,
and exactly the 288000-second (80-hour) default when no baseline value
exists for the pair — in particular whenever no spreadsheet was found
at all. -/
theorem merger_keeps_planned_pairs (ms : List Member)
    (excel : Option ExcelData) (m : Member) (c : String × Int)
    (hm : m ∈ ms) (hc : c ∈ m.capacity) :
    ∃ r ∈ mergeReport ms excel, r.1 = m.name ∧
      ∃ cell ∈ r.2, cell.1 = c.1 ∧ cell.2.1 = c.2 ∧
        cell.2.2.1 = (baselineLookup excel m.name c.1).getD 288000 ∧
        (baselineLookup excel m.name c.1 = none →
          cell.2.2.1 = 288000) ∧
        (excel = none → cell.2.2.1 = 288000) := by
  refine ⟨(m.name, m.capacity.map (fun c =>
      (c.1, c.2, baselineOrDefault excel m.name c.1,
        classify (c.2 : ℚ) (baselineOrDefault excel m.name c.1)))),
    List.mem_map_of_mem _ hm, rfl,
    (c.1, c.2, baselineOrDefault excel m.name c.1,
      classify (c.2 : ℚ) (baselineOrDefault excel m.name c.1)),
    List.mem_map_of_mem _ hc, rfl, rfl, baselineOrDefault_eq _ _ _,
    ?_, ?_⟩
  · intro h
    rw [baselineOrDefault_eq, h]
    rfl
  · intro h
    subst h
    rfl

/-- Witness for C4: with no spreadsheet at all, Alice's single planned
entry is kept and receives the 288000-second default baseline. -/
theorem merger_keeps_planned_pairs_witness :
    ∃ r ∈ mergeReport [⟨"Alice", [("26_04_01", 3600)]⟩] none,
      r.1 = "Alice" ∧
      ∃ cell ∈ r.2, cell.1 = "26_04_01" ∧ cell.2.1 = 3600 ∧
        cell.2.2.1 =
          (baselineLookup none "Alice" "26_04_01").getD 288000 ∧
        (baselineLookup none "Alice" "26_04_01" = none →
          cell.2.2.1 = 288000) ∧
        ((none : Option ExcelData) = none → cell.2.2.1 = 288000) :=
  merger_keeps_planned_pairs [⟨"Alice", [("26_04_01", 3600)]⟩] none
    ⟨"Alice", [("26_04_01", 3600)]⟩ ("26_04_01", 3600)
    (by simp) (by simp)

/-- C5: for a merged cell with positive baseline and
`ratio = planned / baseline`, the classification is red exactly when
`ratio > 1.05`, yellow exactly when `1 < ratio ≤ 1.05`, and normal
exactly when `ratio ≤ 1`; with a zero baseline the cell is red exactly
when planned is positive and normal otherwise. -/
theorem classify_bands (planned baseline : ℚ) (hb : 0 < baseline) :
    (classify planned baseline = .red ↔
      21 / 20 < planned / baseline) ∧
    (classify planned baseline = .yellow ↔
      1 < planned / baseline ∧ planned / baseline ≤ 21 / 20) ∧
    (classify planned baseline = .normal ↔ planned / baseline ≤ 1) ∧
    (classify planned 0 =
      if 0 < planned then CapClass.red else CapClass.normal) := by
  have hb' : baseline ≠ 0 := ne_of_gt hb
  have h0 : classify planned 0 =
      if 0 < planned then CapClass.red else CapClass.normal := by
    simp [classify]
  by_cases h1 : (21 : ℚ) / 20 < planned / baseline
  · have hcl : classify planned baseline = .red := by
      simp [classify, hb', h1]
    have h2 : (1 : ℚ) < planned / baseline :=
      lt_trans (by norm_num) h1
    rw [hcl]
    exact ⟨by simp [h1], by simp [not_le.mpr h1], by simp [not_le.mpr h2],
      h0⟩
  · by_cases h2 : (1 : ℚ) < planned / baseline
    · have hcl : classify planned baseline = .yellow := by
        simp [classify, hb', h1, h2]
      rw [hcl]
      exact ⟨by simp [h1], by simp [h2, not_lt.mp h1],
        by simp [not_le.mpr h2], h0⟩
    · have hcl : classify planned baseline = .normal := by
        simp [classify, hb', h1, h2]
      rw [hcl]
      exact ⟨by simp [h1], by simp [h2], by simp [not_lt.mp h2], h0⟩

/-- Witness for C5 at the spec's example values: 28800/28800 is
normal, 30500/28800 is red, 29500/28800 is yellow. -/
theorem classify_bands_witness :
    classify 28800 28800 = .normal ∧
    classify 30500 28800 = .red ∧
    classify 29500 28800 = .yellow :=
  ⟨((classify_bands 28800 28800 (by norm_num)).2.2.1).mpr (by norm_num),
    ((classify_bands 30500 28800 (by norm_num)).1).mpr (by norm_num),
    ((classify_bands 29500 28800 (by norm_num)).2.1).mpr
      (by constructor <;> norm_num)⟩

/-- Wrapping every element in `some` and then dropping `none`s is the
identity traversal. -/
theorem filterMap_some_cellS (names : List String) :
    List.filterMap (fun s => some (CellVal.s s)) names =
      names.map CellVal.s := by
  induction names with
  | nil => rfl
  | cons a t ih => simp [ih]

/-- C6: for every parsed workbook the roster is row 0 from column 4 on
with null cells skipped (first conjunct, fully general); and on a
workbook consisting of a roster row, an iteration-marker row, and a
capacity row (column 1 = `CAPA`) carrying numeric hour cells from
column 4, each member's recorded baseline for the normalized current
iteration is their own column's value converted to seconds by
multiplying by 3600. -/
theorem excel_parse_capacity (names : List String) (hours : List ℚ)
    (marker : String) (row0 : List Cell) (rest : List (List Cell))
    (hmark : strStartsWith marker "PI" = true)
    (hiter : normalizeIter marker ≠ "")
    (hnd : (names.map CellVal.s).Nodup) :
    ((getCapacityData (row0 :: rest)).map ExcelData.members =
      some ((row0.drop 4).filterMap id)) ∧
    (∃ ed, getCapacityData
        [[none, none, none, none] ++
            names.map (fun s => some (CellVal.s s)),
          [some (CellVal.s marker)],
          [none, some (CellVal.s "CAPA"), none, none] ++
            hours.map (fun v => some (CellVal.n v))] = some ed ∧
      ed.members = names.map CellVal.s ∧
      ∀ j, (hj1 : j < names.length) → (hj2 : j < hours.length) →
        lookupCM ed.capacity (CellVal.s names[j])
          (normalizeIter marker) = some (hours[j] * 3600)) := by
  constructor
  · simp [getCapacityData]
  · have hml :
        ((([none, none, none, none] ++
          names.map (fun s => some (CellVal.s s)) : List Cell)).drop
            4).filterMap id = names.map CellVal.s := by
      simp [List.filterMap_map, filterMap_some_cellS]
    have h0 : processRow (names.map CellVal.s)
        (none, (names.map CellVal.s).map
          (fun m => (m, ([] : List (String × ℚ)))))
        ([none, none, none, none] ++
          names.map (fun s => some (CellVal.s s))) =
        (none, (names.map CellVal.s).map
          (fun m => (m, ([] : List (String × ℚ))))) := by
      simp [processRow]
    have h1 : processRow (names.map CellVal.s)
        (none, (names.map CellVal.s).map
          (fun m => (m, ([] : List (String × ℚ)))))
        [some (CellVal.s marker)] =
        (some (normalizeIter marker), (names.map CellVal.s).map
          (fun m => (m, ([] : List (String × ℚ))))) := by
      simp [processRow, hmark]
    have h2 : processRow (names.map CellVal.s)
        (some (normalizeIter marker), (names.map CellVal.s).map
          (fun m => (m, ([] : List (String × ℚ)))))
        ([none, some (CellVal.s "CAPA"), none, none] ++
          hours.map (fun v => some (CellVal.n v))) =
        (some (normalizeIter marker),
          writeCapaFrom
            ([none, some (CellVal.s "CAPA"), none, none] ++
              hours.map (fun v => some (CellVal.n v)))
            (normalizeIter marker) 0 (names.map CellVal.s)
            ((names.map CellVal.s).map
              (fun m => (m, ([] : List (String × ℚ)))))) := by
      simp [processRow, hiter]
    refine ⟨⟨names.map CellVal.s,
      writeCapaFrom
        ([none, some (CellVal.s "CAPA"), none, none] ++
          hours.map (fun v => some (CellVal.n v)))
        (normalizeIter marker) 0 (names.map CellVal.s)
        ((names.map CellVal.s).map
          (fun m => (m, ([] : List (String × ℚ)))))⟩, ?_, rfl, ?_⟩
    · simp only [getCapacityData, hml, List.foldl_cons, List.foldl_nil,
        h0, h1, h2]
    · intro j hj1 hj2
      have hjm : j < (names.map CellVal.s).length := by simpa using hj1
      have hW := lookupCM_writeCapaFrom
        ([none, some (CellVal.s "CAPA"), none, none] ++
          hours.map (fun v => some (CellVal.n v)))
        (normalizeIter marker) (names.map CellVal.s) 0
        ((names.map CellVal.s).map
          (fun m => (m, ([] : List (String × ℚ))))) hnd j hjm
      have hrow : (([none, some (CellVal.s "CAPA"), none, none] ++
          hours.map (fun v => some (CellVal.n v)) : List Cell))[0 + j + 4]? =
          some (some (CellVal.n hours[j])) := by
        rw [show 0 + j + 4 = j + 4 from by omega]
        rw [List.getElem?_append_right (by simp)]
        simp [hj2]
      rw [hrow] at hW
      have hkey : (names.map CellVal.s)[j] = CellVal.s names[j] :=
        List.getElem_map _
      rw [hkey] at hW
      exact hW

/-- Witness for C6: a one-member roster (`"A"` in column 4), marker
row `PI2026_04_01`, and a capacity row with 8 hours in column 4 yield
exactly 28800 seconds for `("A", "26_04_01")`. -/
theorem excel_parse_capacity_witness :
    ∃ ed, getCapacityData
        [[none, none, none, none, some (CellVal.s "A")],
          [some (CellVal.s "PI2026_04_01")],
          [none, some (CellVal.s "CAPA"), none, none,
            some (CellVal.n 8)]] = some ed ∧
      ed.members = [CellVal.s "A"] ∧
      lookupCM ed.capacity (CellVal.s "A") "26_04_01" = some 28800 := by
  obtain ⟨_, ed, hed, hmem, hlook⟩ := excel_parse_capacity ["A"] [8]
    "PI2026_04_01" [] [] (by decide) (by decide) (by decide)
  refine ⟨ed, hed, hmem, ?_⟩
  have h := hlook 0 (by norm_num) (by norm_num)
  rw [show normalizeIter "PI2026_04_01" = "26_04_01" from by decide] at h
  rw [show ((["A"] : List String))[0] = "A" from rfl] at h
  rw [show (([8] : List ℚ))[0] = 8 from rfl] at h
  rw [show (8 : ℚ) * 3600 = 28800 from by norm_num] at h
  exact h

end JiraTimesheet
